import Mathlib

/-!
Verification of the round/word-session controller of the Elias party game
(`aliace_game`): the word database (`database.py`), the word manager
(`words.py`) and the game state machine (`game.py`, class `EliasGame`).

The embedding keeps the Python names.  Wall-clock timestamps (`time.time()`)
are modelled as rationals; SQLite's `ORDER BY RANDOM()` is modelled by an
explicit `shuffle` function parameter, constrained in theorems to return a
permutation of its input.  Rendering, widgets and pygame plumbing are outside
the modelled boundary, as are UI-only fields (`current_screen`, fonts,
buttons, messages).
-/

/-- Record of the SQLite `words` table: one word with its difficulty label
(`database.py`).  The `id` and `created_at` columns play no role in any
modelled operation and are elided.  The table has a UNIQUE constraint on
`word`; theorems that need it take `Nodup` of the word texts as a
hypothesis. -/
structure WordRec where
  word : String
  difficulty : String
  deriving DecidableEq, Repr

namespace WordDatabase

/-- Embeds `WordDatabase.add_word` (database.py): `INSERT INTO words` which
raises `IntegrityError` (reported as `false`) exactly when the word already
exists, and otherwise appends the new row and reports `true`. -/
def add_word (db : List WordRec) (w d : String) : List WordRec × Bool :=
  if db.any (fun r => r.word == w) then (db, false)
  else (db ++ [⟨w, d⟩], true)

/-- Embeds `WordDatabase.remove_word` (database.py): `DELETE FROM words WHERE
word = ?`, reporting `cursor.rowcount > 0`, i.e. whether any row was
deleted. -/
def remove_word (db : List WordRec) (w : String) : List WordRec × Bool :=
  let db2 := db.filter (fun r => !(r.word == w))
  (db2, decide (db2.length < db.length))

/-- Embeds `WordDatabase.update_word` (database.py): `UPDATE words SET word=?,
difficulty=? WHERE word=?`.  If no row has the old word the UPDATE affects
zero rows and the function still returns `true`; an `IntegrityError`
(unique-constraint violation, reported as `false`, database left unchanged)
occurs exactly when the new word differs from the old one and already exists
in the table. -/
def update_word (db : List WordRec) (oldWord newWord d : String) :
    List WordRec × Bool :=
  if db.all (fun r => !(r.word == oldWord)) then (db, true)
  else if !(newWord == oldWord) && db.any (fun r => r.word == newWord) then
    (db, false)
  else (db.map (fun r => if r.word == oldWord then ⟨newWord, d⟩ else r), true)

/-- The rows of the `words` table with the given difficulty, projected to
their texts: the result set of `SELECT word FROM words WHERE difficulty = ?`
before the `ORDER BY RANDOM()` reordering. -/
def filteredPool (db : List WordRec) (d : String) : List String :=
  (db.filter (fun r => r.difficulty == d)).map (fun r => r.word)

/-- Embeds `WordDatabase.get_random_words` (database.py) in the
difficulty-filtered case used by the game: `SELECT word FROM words WHERE
difficulty = ? ORDER BY RANDOM()`.  The nondeterministic `ORDER BY RANDOM()`
is modelled by the `shuffle` parameter, which theorems constrain to produce a
permutation of its input. -/
def get_random_words (db : List WordRec) (d : String)
    (shuffle : List String → List String) : List String :=
  shuffle (filteredPool db d)

end WordDatabase

/-- State of the `Words` manager (words.py): the backing database rows, the
in-memory word list `self.words` consumed during a round, and the selected
difficulty. -/
structure WordsState where
  db : List WordRec
  words : List String
  selected_difficulty : String
  deriving DecidableEq, Repr

namespace Words

/-- Embeds `Words.set_difficulty` (words.py): stores the difficulty and
refills `self.words` from `db.get_random_words(difficulty)`. -/
def set_difficulty (ws : WordsState) (d : String)
    (shuffle : List String → List String) : WordsState :=
  { ws with selected_difficulty := d
            words := WordDatabase.get_random_words ws.db d shuffle }

/-- Embeds `Words.get_random_word` (words.py): returns `None` when the list
is empty, otherwise `self.words.pop()` — Python's `pop()` removes and returns
the LAST element.  Returned alongside the updated list. -/
def get_random_word (ws : List String) : Option String × List String :=
  match ws.getLast? with
  | none => (none, ws)
  | some w => (some w, ws.dropLast)

/-- Embeds `Words.add_word` (words.py): delegates to the database and, when
the insert succeeded AND the added word's difficulty equals the currently
selected one, refills `self.words` with a fresh shuffled full pool. -/
def add_word (ws : WordsState) (w d : String)
    (shuffle : List String → List String) : WordsState × Bool :=
  let res := WordDatabase.add_word ws.db w d
  if res.2 && (d == ws.selected_difficulty) then
    ({ ws with db := res.1
               words := WordDatabase.get_random_words res.1
                 ws.selected_difficulty shuffle }, res.2)
  else
    ({ ws with db := res.1 }, res.2)

/-- Embeds `Words.remove_word` (words.py): delegates to the database and on
success refills `self.words` with a fresh shuffled full pool for the selected
difficulty. -/
def remove_word (ws : WordsState) (w : String)
    (shuffle : List String → List String) : WordsState × Bool :=
  let res := WordDatabase.remove_word ws.db w
  if res.2 then
    ({ ws with db := res.1
               words := WordDatabase.get_random_words res.1
                 ws.selected_difficulty shuffle }, res.2)
  else
    ({ ws with db := res.1 }, res.2)

/-- Embeds `Words.update_word` (words.py): delegates to the database and on
success refills `self.words` with a fresh shuffled full pool for the selected
difficulty. -/
def update_word (ws : WordsState) (oldWord newWord d : String)
    (shuffle : List String → List String) : WordsState × Bool :=
  let res := WordDatabase.update_word ws.db oldWord newWord d
  if res.2 then
    ({ ws with db := res.1
               words := WordDatabase.get_random_words res.1
                 ws.selected_difficulty shuffle }, res.2)
  else
    ({ ws with db := res.1 }, res.2)

end Words

/-- Python's `int()` conversion of a rational: truncation toward zero.
`Int.tdiv` is Lean's truncating division, matching CPython's `int(float)`. -/
def pyInt (q : ℚ) : ℤ :=
  Int.tdiv q.num (q.den : ℤ)

/-- Sentinel shown by `EliasGame.start_game` when the pool is empty at round
start ("Нет слов"). -/
def sentinelNoWords : String := "Нет слов"

/-- Sentinel shown by `EliasGame.next_word` when the pool runs out mid-round
("Все слова использованы!"). -/
def sentinelExhausted : String := "Все слова использованы!"

/-- Round-relevant state of `EliasGame` (game.py).  `words` is the word
manager's in-memory list `self.word_manager.words`; timestamps are rationals
standing for `time.time()` floats; UI-only fields (screen tag, fonts,
buttons, messages) are elided. -/
structure GameState where
  score : Nat
  current_word : Option String
  game_active : Bool
  game_finished : Bool
  time_left : ℤ
  selected_time : ℤ
  start_time : ℚ
  end_time : ℚ
  words : List String
  timer_running : Bool
  deriving DecidableEq, Repr

/-- Round lifecycle status of the spec's RoundController, derived from the
two flags exactly as the code branches on them (`game_active` first, then
`game_finished`). -/
inductive Status
  | idle
  | active
  | finished
  deriving DecidableEq, Repr

/-- Derives the spec-level status from `EliasGame`'s flag pair. -/
def statusOf (g : GameState) : Status :=
  if g.game_active then Status.active
  else if g.game_finished then Status.finished
  else Status.idle

/-- Orders the statuses along the intended idle → active → finished
lifecycle. -/
def statusRank : Status → Nat
  | Status.idle => 0
  | Status.active => 1
  | Status.finished => 2

/-- Embeds `EliasGame.next_word` (game.py): pops the next word via
`Words.get_random_word`; on `None` shows the exhausted sentinel and ends the
round (`game_active = False`, `game_finished = True`). -/
def next_word (g : GameState) : GameState :=
  match Words.get_random_word g.words with
  | (some w, rest) => { g with current_word := some w, words := rest }
  | (none, _) =>
      { g with current_word := some sentinelExhausted
               game_active := false
               game_finished := true }

/-- Embeds `EliasGame.start_game` (game.py): resets score and flags, sets the
deadline from the selected duration, loads `pool` (the list produced by
`Words.set_difficulty`, i.e. the shuffled difficulty-filtered pool), pops the
first word (falling back to the no-words sentinel), and starts the timer
thread (`start_timer` sets `timer_running = True`). -/
def start_game (g : GameState) (now : ℚ) (pool : List String) : GameState :=
  let g1 : GameState :=
    { g with score := 0
             game_active := true
             game_finished := false
             time_left := g.selected_time
             start_time := now
             end_time := now + (g.selected_time : ℚ)
             words := pool }
  let g2 : GameState :=
    match Words.get_random_word g1.words with
    | (some w, rest) => { g1 with current_word := some w, words := rest }
    | (none, _) => { g1 with current_word := some sentinelNoWords }
  { g2 with timer_running := true }

/-- Embeds one click of the guessed button on the game screen
(`EliasGame.handle_events`, `SCREEN_GAME` branch): only when `game_active`,
increment the score and advance to the next word; otherwise the click falls
through with no effect. -/
def clickGuessed (g : GameState) : GameState :=
  if g.game_active then next_word { g with score := g.score + 1 } else g

/-- Embeds one click of the skip button on the game screen
(`EliasGame.handle_events`, `SCREEN_GAME` branch): only when `game_active`,
advance to the next word without touching the score; otherwise no effect. -/
def clickSkip (g : GameState) : GameState :=
  if g.game_active then next_word g else g

/-- Embeds one iteration of `EliasGame.timer_function` (game.py), including
the `while self.timer_running and self.game_active` loop guard: before the
deadline it refreshes `time_left = int(end_time - now)`; at or past the
deadline it zeroes `time_left` and ends the round. -/
def tick (g : GameState) (now : ℚ) : GameState :=
  if g.timer_running && g.game_active then
    if now < g.end_time then
      { g with time_left := pyInt (g.end_time - now) }
    else
      { g with time_left := 0, game_active := false, game_finished := true }
  else g

/-- The round operations of the controller, for invariants quantified over
arbitrary operation sequences. -/
inductive Op
  | roundStart (now : ℚ) (pool : List String)
  | timerTick (now : ℚ)
  | guess
  | skip
  deriving DecidableEq, Repr

/-- Applies one round operation to the game state. -/
def applyOp (g : GameState) : Op → GameState
  | Op.roundStart now pool => start_game g now pool
  | Op.timerTick now => tick g now
  | Op.guess => clickGuessed g
  | Op.skip => clickSkip g

/-- Applies a sequence of round operations left to right. -/
def applyOps (g : GameState) (ops : List Op) : GameState :=
  ops.foldl applyOp g

/-- Tests whether an operation is a guessed click. -/
def isGuess : Op → Bool
  | Op.guess => true
  | _ => false

/-- The game state right after `EliasGame.__init__` (game.py): score 0, no
word, both flags down, default duration 120 seconds, timer not running. -/
def gInit : GameState :=
  { score := 0
    current_word := none
    game_active := false
    game_finished := false
    time_left := 120
    selected_time := 120
    start_time := 0
    end_time := 0
    words := []
    timer_running := false }

/-- A mid-round state whose word list has just been exhausted: the round is
still active but `words` is empty. -/
def gActiveEmpty : GameState :=
  { gInit with game_active := true, timer_running := true }

/-- A running round whose deadline is the timestamp 120, used to exercise the
timer at expiry. -/
def gRun : GameState :=
  { gInit with game_active := true, timer_running := true, end_time := 120 }

/-- A running round whose deadline is the non-integer timestamp 5/2, used to
exercise the timer's display computation on a fractional remaining time. -/
def gTimer : GameState :=
  { gInit with game_active := true
               timer_running := true
               end_time := Rat.divInt 5 2 }

/-- A one-word database used to exercise removes and updates of words that
are not stored. -/
def dbEx : List WordRec := [⟨"дом", "easy"⟩]

/-- A three-word, two-difficulty database state for exercising pool
selection. -/
def wsEx : WordsState :=
  { db := [⟨"игра", "easy"⟩, ⟨"кот", "medium"⟩, ⟨"дом", "easy"⟩]
    words := []
    selected_difficulty := "easy" }

/-- A manager state mid-round: the single easy word "дом" has already been
shown (popped from `words`), round pool empty. -/
def wsShown : WordsState :=
  { db := [⟨"дом", "easy"⟩]
    words := []
    selected_difficulty := "easy" }

/-- Unfolds `next_word` when the word list is nonempty: the last element is
popped and shown. -/
theorem next_word_concat (g : GameState) (ys : List String) (y : String)
    (h : g.words = ys ++ [y]) :
    next_word g = { g with current_word := some y, words := ys } := by
  simp [next_word, Words.get_random_word, h, List.getLast?_concat,
    List.dropLast_concat]

/-- Unfolds `next_word` when the word list is empty: exhausted sentinel, round
ends. -/
theorem next_word_nil (g : GameState) (h : g.words = []) :
    next_word g = { g with current_word := some sentinelExhausted
                           game_active := false
                           game_finished := true } := by
  simp [next_word, Words.get_random_word, h]

/-- Advancing the word never changes the score. -/
theorem next_word_score (g : GameState) : (next_word g).score = g.score := by
  rcases List.eq_nil_or_concat g.words with h | ⟨ys, y, h⟩
  · rw [next_word_nil g h]
  · rw [List.concat_eq_append] at h
    rw [next_word_concat g ys y h]

/-- Advancing the word either keeps both lifecycle flags or ends the round. -/
theorem next_word_cases (g : GameState) :
    ((next_word g).game_active = g.game_active ∧
      (next_word g).game_finished = g.game_finished) ∨
    ((next_word g).game_active = false ∧ (next_word g).game_finished = true) := by
  rcases List.eq_nil_or_concat g.words with h | ⟨ys, y, h⟩
  · right
    rw [next_word_nil g h]
    exact ⟨rfl, rfl⟩
  · left
    rw [List.concat_eq_append] at h
    rw [next_word_concat g ys y h]
    exact ⟨rfl, rfl⟩

/-- The derived status is `active` exactly when the `game_active` flag is
up. -/
theorem status_active_iff (g : GameState) :
    statusOf g = Status.active ↔ g.game_active = true := by
  cases hga : g.game_active <;> cases hgf : g.game_finished <;>
    simp [statusOf, hga, hgf]

/-- The derived status is `finished` exactly when `game_active` is down and
`game_finished` is up. -/
theorem status_finished_iff (g : GameState) :
    statusOf g = Status.finished ↔
      (g.game_active = false ∧ g.game_finished = true) := by
  cases hga : g.game_active <;> cases hgf : g.game_finished <;>
    simp [statusOf, hga, hgf]

/-- Unfolds `start_game` on a nonempty pool: the last pool element is popped
as the first shown word. -/
theorem start_game_concat (g : GameState) (now : ℚ) (ys : List String)
    (y : String) :
    start_game g now (ys ++ [y]) =
    { score := 0
      current_word := some y
      game_active := true
      game_finished := false
      time_left := g.selected_time
      selected_time := g.selected_time
      start_time := now
      end_time := now + (g.selected_time : ℚ)
      words := ys
      timer_running := true } := by
  simp [start_game, Words.get_random_word, List.getLast?_concat,
    List.dropLast_concat]

/-- Unfolds `start_game` on an empty pool: the no-words sentinel is shown but
the flags still mark the round active. -/
theorem start_game_nil (g : GameState) (now : ℚ) :
    start_game g now [] =
    { score := 0
      current_word := some sentinelNoWords
      game_active := true
      game_finished := false
      time_left := g.selected_time
      selected_time := g.selected_time
      start_time := now
      end_time := now + (g.selected_time : ℚ)
      words := []
      timer_running := true } := by
  simp [start_game, Words.get_random_word]

/-- A timer iteration never changes the displayed word. -/
theorem tick_current_word (g : GameState) (now : ℚ) :
    (tick g now).current_word = g.current_word := by
  by_cases h1 : (g.timer_running && g.game_active) = true
  · by_cases h2 : now < g.end_time <;> simp [tick, h1, h2]
  · simp [tick, h1]

/-- A timer iteration never changes the score. -/
theorem tick_score (g : GameState) (now : ℚ) :
    (tick g now).score = g.score := by
  by_cases h1 : (g.timer_running && g.game_active) = true
  · by_cases h2 : now < g.end_time <;> simp [tick, h1, h2]
  · simp [tick, h1]

/-- A timer iteration never changes the remaining word list. -/
theorem tick_words (g : GameState) (now : ℚ) :
    (tick g now).words = g.words := by
  by_cases h1 : (g.timer_running && g.game_active) = true
  · by_cases h2 : now < g.end_time <;> simp [tick, h1, h2]
  · simp [tick, h1]

/-- A timer iteration only moves the status forward along the lifecycle. -/
theorem tick_rank_mono (g : GameState) (now : ℚ) :
    statusRank (statusOf g) ≤ statusRank (statusOf (tick g now)) := by
  by_cases h1 : (g.timer_running && g.game_active) = true
  · have hrun : g.timer_running = true := (Bool.and_eq_true _ _).mp h1 |>.1
    have hga : g.game_active = true := (Bool.and_eq_true _ _).mp h1 |>.2
    by_cases h2 : now < g.end_time
    · simp [tick, hrun, hga, h2, statusOf]
    · simp [tick, hrun, hga, h2, statusOf, statusRank]
  · simp [tick, h1]

/-- On a finished round a timer iteration is the identity (the loop guard is
down). -/
theorem tick_finished_noop (g : GameState) (now : ℚ)
    (h : statusOf g = Status.finished) : tick g now = g := by
  have hga : g.game_active = false := ((status_finished_iff g).mp h).1
  simp [tick, hga]

/-- Once finished, the timer thread's `while` guard is false, so the loop
stops. -/
theorem finished_guard_false (g : GameState)
    (h : statusOf g = Status.finished) :
    (g.timer_running && g.game_active) = false := by
  have hga : g.game_active = false := ((status_finished_iff g).mp h).1
  simp [hga]

/-- While active, a guessed click scores exactly one point (the increment
happens before the word advance, so it counts even on the click that
exhausts the pool). -/
theorem clickGuessed_score_active (g : GameState)
    (hga : g.game_active = true) :
    (clickGuessed g).score = g.score + 1 := by
  have h : clickGuessed g = next_word { g with score := g.score + 1 } := by
    simp [clickGuessed, hga]
  rw [h, next_word_score]

/-- A skip click never changes the score. -/
theorem clickSkip_score (g : GameState) : (clickSkip g).score = g.score := by
  by_cases hga : g.game_active = true
  · simp [clickSkip, hga, next_word_score]
  · simp [clickSkip, hga]

/-- Advancing from an active state lands in an active or finished state. -/
theorem next_word_status_of_active (g : GameState)
    (hga : g.game_active = true) :
    statusOf (next_word g) = Status.active ∨
      statusOf (next_word g) = Status.finished := by
  rcases next_word_cases g with ⟨h1, _⟩ | ⟨h1, h2⟩
  · left
    exact (status_active_iff _).mpr (h1.trans hga)
  · right
    exact (status_finished_iff _).mpr ⟨h1, h2⟩

/-- A guessed click only moves the status forward along the lifecycle. -/
theorem clickGuessed_rank_mono (g : GameState) :
    statusRank (statusOf g) ≤ statusRank (statusOf (clickGuessed g)) := by
  by_cases hga : g.game_active = true
  · have h : clickGuessed g = next_word { g with score := g.score + 1 } := by
      simp [clickGuessed, hga]
    have hga2 : ({ g with score := g.score + 1 } : GameState).game_active
        = true := hga
    rw [h, (status_active_iff g).mpr hga]
    rcases next_word_status_of_active _ hga2 with h2 | h2 <;>
      simp [h2, statusRank]
  · simp [clickGuessed, hga]

/-- A skip click only moves the status forward along the lifecycle. -/
theorem clickSkip_rank_mono (g : GameState) :
    statusRank (statusOf g) ≤ statusRank (statusOf (clickSkip g)) := by
  by_cases hga : g.game_active = true
  · have h : clickSkip g = next_word g := by simp [clickSkip, hga]
    rw [h, (status_active_iff g).mpr hga]
    rcases next_word_status_of_active g hga with h2 | h2 <;>
      simp [h2, statusRank]
  · simp [clickSkip, hga]

/-- Counting invariant behind the scoring property: from an active state
whose list still holds enough words (one word may already be on display,
hence the `+ 1`), a sequence of clicks adds exactly the number of guessed
clicks to the score. -/
theorem applyOps_score_count (ops : List Op) (g : GameState)
    (hops : ∀ op ∈ ops, op = Op.guess ∨ op = Op.skip)
    (hact : g.game_active = true)
    (hlen : ops.length ≤ g.words.length + 1) :
    (applyOps g ops).score = g.score + List.countP isGuess ops := by
  induction ops generalizing g with
  | nil => simp [applyOps]
  | cons op rest ih =>
    have hop := hops op (List.mem_cons_self op rest)
    have hrest : ∀ o ∈ rest, o = Op.guess ∨ o = Op.skip :=
      fun o ho => hops o (List.mem_cons_of_mem _ ho)
    rcases List.eq_nil_or_concat g.words with hw | ⟨ys, y, hw⟩
    · have hlen2 : rest.length + 1 ≤ 1 := by simpa [hw] using hlen
      have hrest0 : rest = [] :=
        List.eq_nil_of_length_eq_zero (by omega)
      subst hrest0
      rcases hop with rfl | rfl
      · simp [applyOps, applyOp, clickGuessed_score_active g hact, isGuess]
      · simp [applyOps, applyOp, clickSkip_score, isGuess]
    · rw [List.concat_eq_append] at hw
      have hlen2 : rest.length ≤ ys.length + 1 := by
        have : rest.length + 1 ≤ (ys ++ [y]).length + 1 := by
          simpa [hw] using hlen
        simpa using this
      rcases hop with rfl | rfl
      · have hg : clickGuessed g
            = { g with score := g.score + 1
                       current_word := some y
                       words := ys } := by
          have h1 : clickGuessed g = next_word { g with score := g.score + 1 } := by
            simp [clickGuessed, hact]
          rw [h1, next_word_concat { g with score := g.score + 1 } ys y hw]
        have happ : applyOps g (Op.guess :: rest)
            = applyOps (clickGuessed g) rest := by
          simp [applyOps, applyOp]
        have hscore := ih { g with score := g.score + 1, current_word := some y, words := ys } hrest hact hlen2
        rw [happ, hg, hscore]
        simp [List.countP_cons, isGuess]
        omega
      · have hg : clickSkip g
            = { g with current_word := some y, words := ys } := by
          have h1 : clickSkip g = next_word g := by simp [clickSkip, hact]
          rw [h1, next_word_concat g ys y hw]
        have happ : applyOps g (Op.skip :: rest)
            = applyOps (clickSkip g) rest := by
          simp [applyOps, applyOp]
        have hscore := ih { g with current_word := some y, words := ys } hrest hact hlen2
        rw [happ, hg, hscore]
        simp [List.countP_cons, isGuess]

/-- C1: for every round started on any pool, after any sequence of
guessed/skip clicks of length at most the pool size the score equals exactly
the number of guessed clicks; each guessed click adds exactly 1 while active
and each skip click leaves the score unchanged. -/
theorem c1_score_counts_guessed (g : GameState) (now : ℚ)
    (pool : List String) (ops : List Op)
    (hops : ∀ op ∈ ops, op = Op.guess ∨ op = Op.skip)
    (hlen : ops.length ≤ pool.length) :
    (applyOps (start_game g now pool) ops).score = List.countP isGuess ops ∧
    (∀ g2 : GameState, g2.game_active = true →
      (clickGuessed g2).score = g2.score + 1) ∧
    (∀ g2 : GameState, (clickSkip g2).score = g2.score) := by
  refine ⟨?_, clickGuessed_score_active, clickSkip_score⟩
  rcases List.eq_nil_or_concat pool with rfl | ⟨ys, y, rfl⟩
  · have hops0 : ops = [] :=
      List.eq_nil_of_length_eq_zero (Nat.le_zero.mp (by simpa using hlen))
    subst hops0
    simp [applyOps, start_game_nil]
  · rw [List.concat_eq_append, start_game_concat]
    have h := applyOps_score_count ops
      { score := 0, current_word := some y, game_active := true,
        game_finished := false, time_left := g.selected_time,
        selected_time := g.selected_time, start_time := now,
        end_time := now + (g.selected_time : ℚ), words := ys,
        timer_running := true } hops rfl (by simpa using hlen)
    rw [h]
    simp

/-- Closed witness for C1: starting on the pool ["a", "b", "c"] and clicking
guessed, skip, guessed yields score 2. -/
theorem c1_witness :
    (applyOps (start_game gInit 0 ["a", "b", "c"])
      [Op.guess, Op.skip, Op.guess]).score = 2 := by
  have h := (c1_score_counts_guessed gInit 0 ["a", "b", "c"]
    [Op.guess, Op.skip, Op.guess] (by decide) (by decide)).1
  exact h.trans (by decide)

/-- C2: once the deadline is reached, a timer iteration of an active running
round always yields status finished regardless of remaining words, leaves the
current word (and word list) unchanged; moreover every timer iteration
preserves the current word, only ever moves the status forward (never
finished back to active), is a no-op on finished rounds, and the timer loop
guard is down once finished. -/
theorem c2_tick_expiry_finishes (g : GameState) (now : ℚ)
    (hrun : g.timer_running = true) (hact : g.game_active = true)
    (hend : g.end_time ≤ now) :
    statusOf (tick g now) = Status.finished ∧
    (tick g now).current_word = g.current_word ∧
    (tick g now).words = g.words ∧
    (∀ g2 : GameState, ∀ n : ℚ,
      (tick g2 n).current_word = g2.current_word) ∧
    (∀ g2 : GameState, ∀ n : ℚ,
      statusRank (statusOf g2) ≤ statusRank (statusOf (tick g2 n))) ∧
    (∀ g2 : GameState, ∀ n : ℚ,
      statusOf g2 = Status.finished → tick g2 n = g2) ∧
    (∀ g2 : GameState, statusOf g2 = Status.finished →
      (g2.timer_running && g2.game_active) = false) := by
  have hnlt : ¬ now < g.end_time := not_lt.mpr hend
  refine ⟨?_, tick_current_word g now, tick_words g now,
    tick_current_word, tick_rank_mono, tick_finished_noop,
    finished_guard_false⟩
  simp [tick, hrun, hact, hnlt, statusOf]

/-- Closed witness for C2: ticking a running round with deadline 120 at time
121 finishes it. -/
theorem c2_witness : statusOf (tick gRun 121) = Status.finished :=
  (c2_tick_expiry_finishes gRun 121 rfl rfl (by norm_num [gRun])).1

/-- C3: when the status is not active (finished or idle), guessed and skip
clicks are silently ignored no-ops: the state — in particular score,
remaining words and current word — is unchanged. -/
theorem c3_inactive_clicks_noop (g : GameState)
    (h : statusOf g ≠ Status.active) :
    clickGuessed g = g ∧ clickSkip g = g ∧
    (clickGuessed g).score = g.score ∧
    (clickGuessed g).words = g.words ∧
    (clickGuessed g).current_word = g.current_word ∧
    (clickSkip g).score = g.score ∧
    (clickSkip g).words = g.words ∧
    (clickSkip g).current_word = g.current_word := by
  have hga : g.game_active = false := by
    cases hg : g.game_active
    · rfl
    · exact absurd ((status_active_iff g).mpr hg) h
  simp [clickGuessed, clickSkip, hga]

/-- Closed witness for C3: on the idle initial state both clicks are
no-ops. -/
theorem c3_witness : clickGuessed gInit = gInit ∧ clickSkip gInit = gInit := by
  have h := c3_inactive_clicks_noop gInit (by decide)
  exact ⟨h.1, h.2.1⟩

/-- C4 as stated is false: starting a round on an empty filtered pool leaves
the status ACTIVE, not finished — `start_game` sets `game_active = True` and
never clears it when `get_random_word` returns `None`; only the sentinel is
installed. -/
theorem c4_counterexample :
    statusOf (start_game gInit 0 []) ≠ Status.finished ∧
    (start_game gInit 0 []).score = 0 ∧
    (start_game gInit 0 []).current_word = some sentinelNoWords := by
  decide

/-- C4 (amended): immediately after a start on an empty filtered pool the
score is 0 and the current word is the no-words sentinel, but the status is
active, not finished. -/
theorem c4_empty_pool_start (g : GameState) (now : ℚ) :
    (start_game g now []).score = 0 ∧
    (start_game g now []).current_word = some sentinelNoWords ∧
    statusOf (start_game g now []) = Status.active := by
  rw [start_game_nil]
  exact ⟨rfl, rfl, rfl⟩

/-- C5: in an active round whose remaining word list is empty, the word
advance performed by a guessed or skip click (via `next_word`) installs the
exhausted sentinel and transitions the status to finished immediately. -/
theorem c5_exhaustion_finishes (g : GameState)
    (hact : g.game_active = true) (hw : g.words = []) :
    statusOf (next_word g) = Status.finished ∧
    (next_word g).current_word = some sentinelExhausted ∧
    statusOf (clickGuessed g) = Status.finished ∧
    (clickGuessed g).current_word = some sentinelExhausted ∧
    statusOf (clickSkip g) = Status.finished ∧
    (clickSkip g).current_word = some sentinelExhausted := by
  have h1 := next_word_nil g hw
  have h2 := next_word_nil { g with score := g.score + 1 } hw
  have hcg : clickGuessed g = next_word { g with score := g.score + 1 } := by
    simp [clickGuessed, hact]
  have hcs : clickSkip g = next_word g := by
    simp [clickSkip, hact]
  rw [hcg, hcs, h1, h2]
  refine ⟨rfl, rfl, rfl, rfl, rfl, rfl⟩

/-- Closed witness for C5: a guessed click on an active round with an empty
word list finishes the round on the exhausted sentinel. -/
theorem c5_witness :
    statusOf (clickGuessed gActiveEmpty) = Status.finished ∧
    (clickGuessed gActiveEmpty).current_word = some sentinelExhausted := by
  have h := c5_exhaustion_finishes gActiveEmpty rfl rfl
  exact ⟨h.2.2.1, h.2.2.2.1⟩

/-- C6: the word list selected at round start (`set_difficulty`, i.e.
`get_random_words` with `ORDER BY RANDOM()` modelled as any permutation) is a
permutation of the pool filtered to the selected difficulty; when the stored
word texts are unique (the table's UNIQUE constraint), the list has no
repeats and contains each filtered word exactly once. -/
theorem c6_pool_permutation (ws : WordsState) (d : String)
    (shuffle : List String → List String)
    (hshuf : ∀ l : List String, List.Perm (shuffle l) l) :
    List.Perm (Words.set_difficulty ws d shuffle).words
      (WordDatabase.filteredPool ws.db d) ∧
    ((ws.db.map WordRec.word).Nodup →
      (Words.set_difficulty ws d shuffle).words.Nodup ∧
      ∀ w ∈ WordDatabase.filteredPool ws.db d,
        (Words.set_difficulty ws d shuffle).words.count w = 1) := by
  have hperm : List.Perm (Words.set_difficulty ws d shuffle).words
      (WordDatabase.filteredPool ws.db d) :=
    hshuf (WordDatabase.filteredPool ws.db d)
  refine ⟨hperm, fun hnd => ?_⟩
  have hsub : List.Sublist
      ((ws.db.filter (fun r => r.difficulty == d)).map (fun r => r.word))
      (ws.db.map (fun r => r.word)) :=
    (List.filter_sublist ws.db).map (fun r => r.word)
  have hpoolnd : (WordDatabase.filteredPool ws.db d).Nodup :=
    List.Nodup.sublist hsub hnd
  refine ⟨hperm.nodup_iff.mpr hpoolnd, fun w hw => ?_⟩
  rw [hperm.count_eq]
  exact List.count_eq_one_of_mem hpoolnd hw

/-- Closed witness for C6: selecting the easy pool of a concrete database
with `reverse` as the permutation yields a permutation of the filtered
pool. -/
theorem c6_witness :
    List.Perm (Words.set_difficulty wsEx "easy" List.reverse).words
      (WordDatabase.filteredPool wsEx.db "easy") :=
  (c6_pool_permutation wsEx "easy" List.reverse
    (fun l => List.reverse_perm l)).1

/-- C7: each round operation keeps the lifecycle moving only forward: a
non-start operation never decreases the score and never moves the status
backward along idle → active → finished, while a start resets the session to
an active round with a fresh score of 0. -/
theorem c7_lifecycle_invariants (g : GameState) (op : Op) :
    (match op with
     | Op.roundStart _ _ =>
        statusOf (applyOp g op) = Status.active ∧ (applyOp g op).score = 0
     | _ =>
        g.score ≤ (applyOp g op).score ∧
        statusRank (statusOf g) ≤ statusRank (statusOf (applyOp g op))) := by
  cases op with
  | roundStart now pool =>
    show statusOf (start_game g now pool) = Status.active ∧
      (start_game g now pool).score = 0
    rcases List.eq_nil_or_concat pool with rfl | ⟨ys, y, rfl⟩
    · rw [start_game_nil]
      exact ⟨rfl, rfl⟩
    · rw [List.concat_eq_append, start_game_concat]
      exact ⟨rfl, rfl⟩
  | timerTick now =>
    exact ⟨le_of_eq (tick_score g now).symm, tick_rank_mono g now⟩
  | guess =>
    refine ⟨?_, clickGuessed_rank_mono g⟩
    show g.score ≤ (clickGuessed g).score
    by_cases hga : g.game_active = true
    · rw [clickGuessed_score_active g hga]
      omega
    · simp [clickGuessed, hga]
  | skip =>
    exact ⟨le_of_eq (clickSkip_score g).symm, clickSkip_rank_mono g⟩

/-- C8 as stated is false for the rename half: updating a word that is not in
the store leaves the store unchanged but reports success (`True`) — the SQL
UPDATE matches zero rows and raises no error — instead of the claimed
not-found report. -/
theorem c8_counterexample :
    (WordDatabase.update_word dbEx "кот" "пёс" "medium").2 = true ∧
    (WordDatabase.update_word dbEx "кот" "пёс" "medium").1 = dbEx := by
  decide

/-- C8 (amended): removing a word absent from the store reports not-found
(`False`) and leaves the store unchanged; updating a word absent from the
store also leaves the store unchanged but reports success (`True`), not
not-found. -/
theorem c8_missing_word_ops (db : List WordRec) (w newWord d : String)
    (hnf : ∀ r ∈ db, r.word ≠ w) :
    WordDatabase.remove_word db w = (db, false) ∧
    WordDatabase.update_word db w newWord d = (db, true) := by
  have hall : ∀ r ∈ db, (!(r.word == w)) = true := by
    intro r hr
    simpa using hnf r hr
  constructor
  · have hfil : db.filter (fun r => !(r.word == w)) = db :=
      List.filter_eq_self.mpr hall
    simp [WordDatabase.remove_word, hfil]
  · have hall2 : db.all (fun r => !(r.word == w)) = true :=
      List.all_eq_true.mpr hall
    simp [WordDatabase.update_word, hall2]

/-- Closed witness for C8 (amended): on the one-word store, removing the
absent word "кот" reports not-found with no change, and updating it reports
success with no change. -/
theorem c8_witness :
    WordDatabase.remove_word dbEx "кот" = (dbEx, false) ∧
    WordDatabase.update_word dbEx "кот" "пёс" "medium" = (dbEx, true) :=
  c8_missing_word_ops dbEx "кот" "пёс" "medium" (by decide)

/-- C9 as stated is false: before the deadline the timer sets the displayed
remaining time to the truncation `int(end_time - now)` — for a remaining
time of 5/2 seconds it displays 2, whereas the claimed
`max 0 ⌈end_time - now⌉` would be 3. -/
theorem c9_counterexample :
    (tick gTimer 0).time_left ≠ max 0 ⌈gTimer.end_time - (0 : ℚ)⌉ := by
  have hguard : (gTimer.timer_running && gTimer.game_active) = true := rfl
  have hlt : (0 : ℚ) < gTimer.end_time := by decide
  have h1 : (tick gTimer 0).time_left = pyInt (gTimer.end_time - 0) := by
    simp [tick, hguard, hlt]
  have h2 : gTimer.end_time - (0 : ℚ) = Rat.divInt 5 2 := sub_zero _
  rw [h1, h2]
  have h3 : pyInt (Rat.divInt 5 2) = 2 := by decide
  have h4 : (⌈Rat.divInt 5 2⌉ : ℤ) = 3 := by decide
  rw [h3, h4]
  decide

/-- C9 (amended): for an active running round ticked before the deadline, the
displayed remaining time is the truncation toward zero of
`end_time - now` — which here equals its floor, not its ceiling — and is
never negative. -/
theorem c9_tick_display (g : GameState) (now : ℚ)
    (hrun : g.timer_running = true) (hact : g.game_active = true)
    (hlt : now < g.end_time) :
    (tick g now).time_left = pyInt (g.end_time - now) ∧
    pyInt (g.end_time - now) = ⌊g.end_time - now⌋ ∧
    0 ≤ (tick g now).time_left := by
  have h1 : (tick g now).time_left = pyInt (g.end_time - now) := by
    simp [tick, hrun, hact, hlt]
  have hq : (0 : ℚ) < g.end_time - now := sub_pos.mpr hlt
  have hnum : 0 ≤ (g.end_time - now).num := le_of_lt (Rat.num_pos.mpr hq)
  have hden : (0 : ℤ) ≤ ((g.end_time - now).den : ℤ) := Int.natCast_nonneg _
  have h2 : pyInt (g.end_time - now) = ⌊g.end_time - now⌋ := by
    unfold pyInt
    rw [Int.tdiv_eq_ediv hnum hden, Rat.floor_def]
  refine ⟨h1, h2, ?_⟩
  rw [h1]
  exact Int.tdiv_nonneg hnum hden

/-- Closed witness for C9 (amended): ticking the 5/2-deadline round at time 0
displays the truncated remaining time. -/
theorem c9_witness :
    (tick gTimer 0).time_left = pyInt (gTimer.end_time - 0) ∧
    pyInt (gTimer.end_time - 0) = ⌊gTimer.end_time - (0 : ℚ)⌋ ∧
    0 ≤ (tick gTimer 0).time_left :=
  c9_tick_display gTimer 0 rfl rfl (by decide)

/-- On a successful add whose difficulty matches the selected one, the
manager replaces its in-memory word list with a freshly shuffled full pool
for the selected difficulty over the updated database. -/
theorem words_add_refresh (ws : WordsState) (w d : String)
    (shuffle : List String → List String)
    (hsucc : (Words.add_word ws w d shuffle).2 = true)
    (hd : d = ws.selected_difficulty) :
    (Words.add_word ws w d shuffle).1.words =
      WordDatabase.get_random_words (Words.add_word ws w d shuffle).1.db
        ws.selected_difficulty shuffle := by
  subst hd
  rcases hres : WordDatabase.add_word ws.db w ws.selected_difficulty
    with ⟨db2, succ⟩
  cases succ with
  | false =>
    exfalso
    simp [Words.add_word, hres] at hsucc
  | true => simp [Words.add_word, hres]

/-- On a successful remove, the manager replaces its in-memory word list with
a freshly shuffled full pool for the selected difficulty over the updated
database. -/
theorem words_remove_refresh (ws : WordsState) (w : String)
    (shuffle : List String → List String)
    (hsucc : (Words.remove_word ws w shuffle).2 = true) :
    (Words.remove_word ws w shuffle).1.words =
      WordDatabase.get_random_words (Words.remove_word ws w shuffle).1.db
        ws.selected_difficulty shuffle := by
  rcases hres : WordDatabase.remove_word ws.db w with ⟨db2, succ⟩
  cases succ with
  | false =>
    exfalso
    simp [Words.remove_word, hres] at hsucc
  | true => simp [Words.remove_word, hres]

/-- On a successful update, the manager replaces its in-memory word list with
a freshly shuffled full pool for the selected difficulty over the updated
database. -/
theorem words_update_refresh (ws : WordsState) (oldWord newWord d : String)
    (shuffle : List String → List String)
    (hsucc : (Words.update_word ws oldWord newWord d shuffle).2 = true) :
    (Words.update_word ws oldWord newWord d shuffle).1.words =
      WordDatabase.get_random_words
        (Words.update_word ws oldWord newWord d shuffle).1.db
        ws.selected_difficulty shuffle := by
  rcases hres : WordDatabase.update_word ws.db oldWord newWord d
    with ⟨db2, succ⟩
  cases succ with
  | false =>
    exfalso
    simp [Words.update_word, hres] at hsucc
  | true => simp [Words.update_word, hres]

/-- C10: during a round, every successful store mutation through the word
manager — an add with the currently selected difficulty, or any successful
remove or update — replaces the manager's remaining word list with a
freshly shuffled FULL pool for the selected difficulty (a permutation of the
whole filtered pool of the updated database), so every word of that pool —
including words already shown this round — is in the new list and the
round's word sequence is not fixed at round start. -/
theorem c10_mutation_resets_pool (ws : WordsState)
    (shuffle : List String → List String)
    (hshuf : ∀ l : List String, List.Perm (shuffle l) l) :
    (∀ w d : String, (Words.add_word ws w d shuffle).2 = true →
      d = ws.selected_difficulty →
      List.Perm (Words.add_word ws w d shuffle).1.words
        (WordDatabase.filteredPool (Words.add_word ws w d shuffle).1.db
          ws.selected_difficulty)) ∧
    (∀ w : String, (Words.remove_word ws w shuffle).2 = true →
      List.Perm (Words.remove_word ws w shuffle).1.words
        (WordDatabase.filteredPool (Words.remove_word ws w shuffle).1.db
          ws.selected_difficulty)) ∧
    (∀ oldWord newWord d : String,
      (Words.update_word ws oldWord newWord d shuffle).2 = true →
      List.Perm (Words.update_word ws oldWord newWord d shuffle).1.words
        (WordDatabase.filteredPool
          (Words.update_word ws oldWord newWord d shuffle).1.db
          ws.selected_difficulty)) ∧
    (∀ w d x : String, (Words.add_word ws w d shuffle).2 = true →
      d = ws.selected_difficulty →
      x ∈ WordDatabase.filteredPool (Words.add_word ws w d shuffle).1.db
        ws.selected_difficulty →
      x ∈ (Words.add_word ws w d shuffle).1.words) := by
  have hadd : ∀ w d : String, (Words.add_word ws w d shuffle).2 = true →
      d = ws.selected_difficulty →
      List.Perm (Words.add_word ws w d shuffle).1.words
        (WordDatabase.filteredPool (Words.add_word ws w d shuffle).1.db
          ws.selected_difficulty) := by
    intro w d hsucc hd
    rw [words_add_refresh ws w d shuffle hsucc hd]
    exact hshuf _
  refine ⟨hadd, ?_, ?_, ?_⟩
  · intro w hsucc
    rw [words_remove_refresh ws w shuffle hsucc]
    exact hshuf _
  · intro oldWord newWord d hsucc
    rw [words_update_refresh ws oldWord newWord d shuffle hsucc]
    exact hshuf _
  · intro w d x hsucc hd hx
    exact ((hadd w d hsucc hd).mem_iff).mpr hx

/-- Closed witness for C10: with "дом" already shown this round (the manager
list is empty), successfully adding "кот" at the selected difficulty brings
"дом" back into the remaining word list. -/
theorem c10_witness :
    "дом" ∈ (Words.add_word wsShown "кот" "easy" List.reverse).1.words := by
  have h := (c10_mutation_resets_pool wsShown List.reverse
    (fun l => List.reverse_perm l)).2.2.2
  exact h "кот" "easy" "дом" (by decide) rfl (by decide)
